import Mathlib

/-!
Verification of the clone-set scorer of `src/experiments/calculate_metrics.py`
and the equivalence-aware name comparison of
`src/experiments/comparison/compare.py`.

Clone classes are Python sets of strings; we embed them as `Finset α` for an
arbitrary type `α` with decidable equality (the concrete instantiation used
for witnesses is `Finset ℕ`, and `Finset String` for the string scenario).
Collections of clone classes are Python lists of sets, embedded as
`List (Finset α)`.

Jaccard scores are computed in Python with float division of two small
integers; we embed the score in `ℚ`.  The second scoring loop compares
integer intersection sizes against an initial `0.0`; all those comparisons
are exact, so it is embedded over `ℕ`.  Note that Python raises
`ZeroDivisionError` when `len(union) == 0`, i.e. only when both classes are
empty; the specification's data-model invariant states clone classes are
non-empty, and theorems below carry non-emptiness hypotheses wherever an
empty class could reach such a division in the source.
-/

section Scorer

variable {α : Type} [DecidableEq α]

/-- The expression `score = len(cc.intersection(other)) / len(cc.union(other))`
from the best-match loop of `calculate_metrics.py`.  Python raises on an empty union
(both sets empty); in `ℚ` the division then yields `0`. -/
def jacc (cc other : Finset α) : ℚ :=
  ((cc ∩ other).card : ℚ) / ((cc ∪ other).card : ℚ)

/-- The `best_score, best_other` accumulation pattern shared by both scoring
loops of `calculate_metrics.py`: starting from an initial pair, replace the
best exactly when the candidate's score is strictly greater
(`if score > best_score`). -/
def bestFold {γ β : Type} [LinearOrder β] (f : γ → β) (init : β × γ)
    (l : List γ) : β × γ :=
  l.foldl (fun best other => if best.1 < f other then (f other, other) else best) init

/-- The inner subsumption test of `calculate_metrics.py`: `cc` is skipped
when some `set2` in the collection satisfies
`cc != set2 and cc.issubset(set2)` (Python `!=` on sets compares values). -/
def survives (l : List (Finset α)) (cc : Finset α) : Bool :=
  !(l.any fun s2 => decide (cc ≠ s2 ∧ cc ⊆ s2))

/-- The classes of a collection that reach the scoring body: those the
subsumption test does not `continue` past. -/
def subFilter (l : List (Finset α)) : List (Finset α) :=
  l.filter (survives l)

/-- The first scoring loop's best match for one detected class `cc`:
`best_score, best_other = 0.0, set()` then Jaccard comparison over the
ground-truth collection `gt`. -/
def bestMatch (gt : List (Finset α)) (cc : Finset α) : ℚ × Finset α :=
  bestFold (fun other => jacc cc other) (0, ∅) gt

/-- The second scoring loop's best match for one truth class `cc`:
`best_score, best_other = 0.0, set()` then raw intersection size over the
detected collection `res`. -/
def bestInter (res : List (Finset α)) (cc : Finset α) : ℕ × Finset α :=
  bestFold (fun other => (cc ∩ other).card) (0, ∅) res

/-- One iteration of the first scoring loop on a surviving detected class:
`tp += |cc ∩ best|`, `fp += |cc \ best|`, `fn += |best \ cc|`. -/
def scoreStep (gt : List (Finset α)) (acc : ℕ × ℕ × ℕ) (cc : Finset α) :
    ℕ × ℕ × ℕ :=
  let best := (bestMatch gt cc).2
  (acc.1 + (cc ∩ best).card, acc.2.1 + (cc \ best).card, acc.2.2 + (best \ cc).card)

/-- The whole first loop (`for cc in res`), starting from `tp, fp, fn = 0`. -/
def detectedPass (res gt : List (Finset α)) : ℕ × ℕ × ℕ :=
  (subFilter res).foldl (scoreStep gt) (0, 0, 0)

/-- One iteration of the second scoring loop on a surviving truth class:
`if best_score == 0.0: fn += len(cc)`. -/
def truthStep (res : List (Finset α)) (fn : ℕ) (cc : Finset α) : ℕ :=
  if (bestInter res cc).1 = 0 then fn + cc.card else fn

/-- The whole second loop (`for cc in gt`), continuing the `fn` counter. -/
def truthPass (res gt : List (Finset α)) (fn : ℕ) : ℕ :=
  (subFilter gt).foldl (truthStep res) fn

/-- The complete scorer body of `calculate_metrics.py`: both loops, yielding
the final `(tp, fp, fn)`. -/
def scorer (res gt : List (Finset α)) : ℕ × ℕ × ℕ :=
  let d := detectedPass res gt
  (d.1, d.2.1, truthPass res gt d.2.2)

end Scorer

/-- The error a Python `ZeroDivisionError` is embedded as. -/
inductive MetricsError : Type
  | divisionByZero
  deriving DecidableEq, Repr

/-- The metric derivation of `calculate_metrics.py`:
`precision = tp/(tp+fp)`, `recall = tp/(tp+fn)`,
`fscore = 2*tp/(2*tp+fp+fn)`, in source order, each division raising when
its denominator is zero. -/
def metrics (tp fp fn : ℕ) : Except MetricsError (ℚ × ℚ × ℚ) :=
  if tp + fp = 0 then .error .divisionByZero
  else if tp + fn = 0 then .error .divisionByZero
  else if 2 * tp + fp + fn = 0 then .error .divisionByZero
  else .ok ((tp : ℚ) / ((tp : ℚ) + fp), (tp : ℚ) / ((tp : ℚ) + fn),
    2 * (tp : ℚ) / (2 * (tp : ℚ) + fp + fn))

/-- The selection rule as worded by the spec for the first scoring loop
(refinement reference, for comparison with `bestMatch`): the first truth
class in iteration order attaining the maximum Jaccard similarity with `cc`
over all truth classes (ties keep the first encountered); `∅` as a default
when `gt` is empty. -/
def specBestTruth {α : Type} [DecidableEq α] (gt : List (Finset α))
    (cc : Finset α) : Finset α :=
  (gt.find? fun t => decide (∀ u ∈ gt, jacc cc u ≤ jacc cc t)).getD ∅

/-- Which of the two accumulating sets of `compare` in
`src/experiments/comparison/compare.py` a pair is added to. -/
inductive PairVerdict : Type
  | correct
  | wrong
  deriving DecidableEq

/-- The statement `if '.' in a: a = a[a.find('.')+1:]` — drop everything up
to and including the first '.'; a name without '.' is unchanged. -/
def stripDot (s : String) : String :=
  match s.toList.dropWhile (fun c => c ≠ '.') with
  | [] => s
  | _ :: rest => String.mk rest

/-- Python's `a < b` on strings: lexicographic comparison of code points
(shorter string first when one is a prefix of the other). -/
def strLt (a b : List Char) : Bool :=
  match a, b with
  | [], [] => false
  | [], _ :: _ => true
  | _ :: _, [] => false
  | c :: cs, d :: ds =>
    if c.toNat < d.toNat then true
    else if d.toNat < c.toNat then false
    else strLt cs ds

/-- The swap `if a > b: a, b = b, a` — normalize the pair
lexicographically. -/
def normPair (a b : String) : String × String :=
  if strLt b.toList a.toList then (b, a) else (a, b)

/-- The hand-curated Known Equivalence Groups of
`src/experiments/comparison/compare.py` (`jointp`). -/
def jointp : List (List String) :=
  [["md5_finish_ctx", "sha1_finish_ctx"],
   ["imaxtostr", "offtostr", "inttostr"],
   ["getgroup", "getuser"],
   ["saferead", "safewrite"],
   ["getgidbyname", "getuidbyname"],
   ["imaxtostr", "umaxtostr"],
   ["sha512_read_ctx", "sha224_read_ctx", "sha384_read_ctx", "sha256_read_ctx",
    "sha512_finish_ctx", "sha224_finish_ctx", "sha384_finish_ctx", "sha256_finish_ctx"],
   ["output_crc", "output_bsd", "output_sysv"],
   ["quotearg_custom_mem", "quotearg_custom",
    "quotearg_n_custom_mem", "quotearg_n_custom"],
   ["quotearg_style", "quotearg_style_mem", "quotearg_n_style",
    "quotearg_n_style_colon", "quotearg_n_style_mem"],
   ["sha224_buffer", "sha256_buffer", "sha384_buffer", "sha512_buffer"],
   ["sha256_process_block", "sha512_process_block"],
   ["ftoastr", "dtoastr", "ldtoastr"],
   ["rev_xstrcoll_width", "rev_strcmp_width", "xstrcoll_width", "strcmp_width"],
   ["open_safer", "openat_safer", "opendir_safer"],
   ["xstrcoll_atime", "xstrcoll_ctime"],
   ["quotearg_char", "quotearg_char_mem"],
   ["xizalloc", "xzalloc"],
   ["xmemdup", "ximemdup", "ximemdup0"],
   ["fd_safer", "fd_safer_flag"],
   ["AD_compare", "dev_ino_compare", "src_to_dest_compare"]]

namespace Comparison

/-- The `compare` function of `src/experiments/comparison/compare.py`:
strip prefixes, normalize the pair, then classify.  Instead of mutating the
caller's `correct_set`/`wrong_set`, the embedding returns which of the two
the (normalized) pair is added to. -/
def compare (a b : String) : PairVerdict :=
  let p := normPair (stripDot a) (stripDot b)
  if p.1 = p.2 ∧ p.1 ≠ "main" then .correct
  else if jointp.any (fun g => decide (p.1 ∈ g) && decide (p.2 ∈ g)) then .correct
  else .wrong

end Comparison

section BestFoldLemmas

variable {γ β : Type} [LinearOrder β] (f : γ → β)

lemma bestFold_nil (init : β × γ) : bestFold f init [] = init := rfl

lemma bestFold_cons (init : β × γ) (y : γ) (ys : List γ) :
    bestFold f init (y :: ys) =
      bestFold f (if init.1 < f y then (f y, y) else init) ys := rfl

lemma le_bestFold_fst (init : β × γ) (l : List γ) :
    init.1 ≤ (bestFold f init l).1 := by
  induction l generalizing init with
  | nil => exact le_rfl
  | cons y ys ih =>
    rw [bestFold_cons]
    by_cases h : init.1 < f y
    · simp only [h, if_pos]
      exact le_trans (le_of_lt h) (ih (f y, y))
    · simp only [h, if_neg, not_false_iff]
      exact ih init

lemma mem_le_bestFold_fst (init : β × γ) (l : List γ) :
    ∀ y ∈ l, f y ≤ (bestFold f init l).1 := by
  induction l generalizing init with
  | nil => intro y hy; cases hy
  | cons z zs ih =>
    intro y hy
    rw [bestFold_cons]
    rcases List.mem_cons.mp hy with rfl | hy
    · by_cases h : init.1 < f y
      · simp only [h, if_pos]
        exact le_bestFold_fst f (f y, y) zs
      · simp only [h, if_neg, not_false_iff]
        exact le_trans (not_lt.mp h) (le_bestFold_fst f init zs)
    · by_cases h : init.1 < f z
      · simp only [h, if_pos]; exact ih (f z, z) y hy
      · simp only [h, if_neg, not_false_iff]; exact ih init y hy

lemma bestFold_eq_init (init : β × γ) (l : List γ)
    (h : ∀ y ∈ l, f y ≤ init.1) : bestFold f init l = init := by
  induction l with
  | nil => rfl
  | cons z zs ih =>
    rw [bestFold_cons]
    have hz : ¬ init.1 < f z := not_lt.mpr (h z (List.mem_cons_self z zs))
    simp only [hz, if_neg, not_false_iff]
    exact ih fun y hy => h y (List.mem_cons_of_mem z hy)

lemma bestFold_eq_init_or_mem (init : β × γ) (l : List γ) :
    bestFold f init l = init ∨
      ((bestFold f init l).1 = f (bestFold f init l).2 ∧
        (bestFold f init l).2 ∈ l) := by
  induction l generalizing init with
  | nil => exact Or.inl rfl
  | cons z zs ih =>
    rw [bestFold_cons]
    by_cases h : init.1 < f z
    · simp only [h, if_pos]
      rcases ih (f z, z) with heq | ⟨h1, h2⟩
      · exact Or.inr ⟨by rw [heq], by rw [heq]; exact List.mem_cons_self z zs⟩
      · exact Or.inr ⟨h1, List.mem_cons_of_mem z h2⟩
    · simp only [h, if_neg, not_false_iff]
      rcases ih init with heq | ⟨h1, h2⟩
      · exact Or.inl heq
      · exact Or.inr ⟨h1, List.mem_cons_of_mem z h2⟩

lemma exists_fmax (l : List γ) (hl : l ≠ []) :
    ∃ y ∈ l, ∀ z ∈ l, f z ≤ f y := by
  induction l with
  | nil => exact absurd rfl hl
  | cons a l ih =>
    rcases eq_or_ne l [] with rfl | hl2
    · exact ⟨a, List.mem_cons_self a [], by
        intro z hz
        rcases List.mem_cons.mp hz with rfl | h
        · exact le_rfl
        · cases h⟩
    · obtain ⟨y, hy, hmax⟩ := ih hl2
      by_cases hya : f y ≤ f a
      · refine ⟨a, List.mem_cons_self a l, ?_⟩
        intro z hz
        rcases List.mem_cons.mp hz with rfl | h
        · exact le_rfl
        · exact le_trans (hmax z h) hya
      · refine ⟨y, List.mem_cons_of_mem a hy, ?_⟩
        intro z hz
        rcases List.mem_cons.mp hz with rfl | h
        · exact le_of_lt (not_le.mp hya)
        · exact hmax z h

lemma list_find?_congr (p q : γ → Bool) (l : List γ)
    (h : ∀ y ∈ l, p y = q y) : l.find? p = l.find? q := by
  induction l with
  | nil => rfl
  | cons a l ih =>
    have ha := h a (List.mem_cons_self a l)
    by_cases hpa : p a = true
    · rw [List.find?_cons_of_pos _ hpa, List.find?_cons_of_pos _ (ha ▸ hpa)]
    · rw [List.find?_cons_of_neg _ hpa,
        List.find?_cons_of_neg _ (by rw [← ha]; exact hpa)]
      exact ih fun y hy => h y (List.mem_cons_of_mem a hy)

/-- When some element of `l` beats the initial score, the `best_other` slot
after the fold holds the first element of `l` attaining the maximum of `f`
over `l`. -/
lemma bestFold_snd_eq_find? (l : List γ) (b : β) (x d : γ)
    (hex : ∃ y ∈ l, b < f y) :
    (bestFold f (b, x) l).2 =
      (l.find? fun y => decide (∀ z ∈ l, f z ≤ f y)).getD d := by
  induction l generalizing b x with
  | nil => obtain ⟨y, hy, _⟩ := hex; cases hy
  | cons a l ih =>
    rw [bestFold_cons]
    by_cases hba : b < f a
    · simp only [hba, if_pos]
      by_cases h1 : ∀ z ∈ l, f z ≤ f a
      · rw [bestFold_eq_init f (f a, a) l h1]
        have hfind : List.find? (fun y => decide (∀ z ∈ a :: l, f z ≤ f y))
            (a :: l) = some a := by
          apply List.find?_cons_of_pos
          simp only [decide_eq_true_eq]
          intro z hz
          rcases List.mem_cons.mp hz with rfl | h
          · exact le_rfl
          · exact h1 z h
        rw [hfind]
        rfl
      · push_neg at h1
        obtain ⟨z0, hz0, hz0a⟩ := h1
        have hih := ih (f a) a ⟨z0, hz0, hz0a⟩
        rw [hih]
        have hfind : List.find? (fun y => decide (∀ z ∈ a :: l, f z ≤ f y))
            (a :: l) = List.find? (fun y => decide (∀ z ∈ a :: l, f z ≤ f y)) l := by
          apply List.find?_cons_of_neg
          intro hcontra
          simp only [decide_eq_true_eq] at hcontra
          exact not_le.mpr hz0a (hcontra z0 (List.mem_cons_of_mem a hz0))
        rw [hfind]
        congr 1
        apply list_find?_congr
        intro y hy
        simp only [decide_eq_decide]
        constructor
        · intro hall z hz
          rcases List.mem_cons.mp hz with rfl | h
          · exact le_trans (le_of_lt hz0a) (hall z0 hz0)
          · exact hall z h
        · intro hall z hz
          exact hall z (List.mem_cons_of_mem a hz)
    · simp only [hba, if_neg, not_false_iff]
      obtain ⟨y0, hy0, hby0⟩ := hex
      have hy0l : y0 ∈ l := by
        rcases List.mem_cons.mp hy0 with rfl | h
        · exact absurd hby0 hba
        · exact h
      have hih := ih b x ⟨y0, hy0l, hby0⟩
      rw [hih]
      have hay0 : f a < f y0 := lt_of_le_of_lt (not_lt.mp hba) hby0
      have hfind : List.find? (fun y => decide (∀ z ∈ a :: l, f z ≤ f y))
          (a :: l) = List.find? (fun y => decide (∀ z ∈ a :: l, f z ≤ f y)) l := by
        apply List.find?_cons_of_neg
        intro hcontra
        simp only [decide_eq_true_eq] at hcontra
        exact not_le.mpr hay0 (hcontra y0 (List.mem_cons_of_mem a hy0l))
      rw [hfind]
      congr 1
      apply list_find?_congr
      intro y hy
      simp only [decide_eq_decide]
      constructor
      · intro hall z hz
        rcases List.mem_cons.mp hz with rfl | h
        · exact le_trans (le_of_lt hay0) (hall y0 hy0l)
        · exact hall z h
      · intro hall z hz
        exact hall z (List.mem_cons_of_mem a hz)

end BestFoldLemmas

section ScorerLemmas

variable {α : Type} [DecidableEq α]

lemma survives_iff (l : List (Finset α)) (cc : Finset α) :
    survives l cc = true ↔ ∀ s2 ∈ l, ¬ cc ⊂ s2 := by
  simp only [survives, Bool.not_eq_true', List.any_eq_false, decide_eq_true_eq,
    Bool.not_eq_true]
  constructor
  · intro h s2 hs2 hss
    have := h s2 hs2
    rw [Finset.ssubset_iff_subset_ne] at hss
    exact this ⟨hss.2, hss.1⟩
  · intro h s2 hs2 hc
    exact h s2 hs2 (Finset.ssubset_iff_subset_ne.mpr ⟨hc.2, hc.1⟩)

lemma mem_subFilter_iff {l : List (Finset α)} {cc : Finset α} :
    cc ∈ subFilter l ↔ cc ∈ l ∧ ∀ s2 ∈ l, ¬ cc ⊂ s2 := by
  rw [subFilter, List.mem_filter, survives_iff]

end ScorerLemmas

/-- C2, counterexample: in the collection `[{0}, {0}]` the first class is a
(non-strict) subset of the second, a different class of the same
collection with equal value, yet the subsumption filter discards neither:
Python's `cc != set2` compares set values, so equal-valued classes never
subsume each other.  The claim predicts both entries may be dropped and
that only classes with no superset among their siblings proceed; in fact
both proceed to scoring. -/
theorem C2_counterexample :
    ({0} : Finset ℕ) ⊆ {0} ∧
    subFilter [({0} : Finset ℕ), {0}] = [{0}, {0}] ∧
    subFilter [({0} : Finset ℕ), {0}] ≠ [] := by
  refine ⟨by decide, by decide, by decide⟩

/-- C2 (amended): a class survives the subsumption filter exactly when it is
not a strict subset of any class of the collection; being an equal-valued
duplicate of another class never discards it, because the source's
`cc != set2` test compares set values. -/
theorem C2_subsumption_filter {α : Type} [DecidableEq α]
    (l : List (Finset α)) (cc : Finset α) :
    cc ∈ subFilter l ↔ cc ∈ l ∧ ∀ s2 ∈ l, ¬ cc ⊂ s2 :=
  mem_subFilter_iff

/-- C9: the subsumption filter is idempotent — filtering the survivors of a
first application changes nothing. -/
theorem C9_subsumption_idempotent {α : Type} [DecidableEq α]
    (l : List (Finset α)) :
    subFilter (subFilter l) = subFilter l := by
  conv_lhs => rw [subFilter]
  apply List.filter_eq_self.mpr
  intro cc hcc
  rw [survives_iff]
  intro s2 hs2
  exact (mem_subFilter_iff.mp hcc).2 s2 (List.mem_of_mem_filter hs2)

/-- C5: whenever `tp + fp = 0` or `tp + fn = 0`, the metric derivation
raises a division error (Python's `ZeroDivisionError`) instead of
returning numbers. -/
theorem C5_degenerate_division_error (tp fp fn : ℕ)
    (h : tp + fp = 0 ∨ tp + fn = 0) :
    metrics tp fp fn = Except.error MetricsError.divisionByZero := by
  rcases h with h | h
  · rw [metrics, if_pos h]
  · by_cases h2 : tp + fp = 0
    · rw [metrics, if_pos h2]
    · rw [metrics, if_neg h2, if_pos h]

theorem C5_degenerate_division_error_witness :
    ((0 : ℕ) + 0 = 0 ∨ (0 : ℕ) + 5 = 0) ∧
    metrics 0 0 5 = Except.error MetricsError.divisionByZero :=
  ⟨Or.inl rfl, C5_degenerate_division_error 0 0 5 (Or.inl rfl)⟩

/-- C3: for a surviving truth class `t`, the second scoring loop computes the
maximum raw intersection size over all detected classes (the returned best
score bounds every intersection and is attained by some detected class
unless it is zero); when that maximum is zero it adds `|t|` to `fn`, and
when it is positive it leaves the counter unchanged. -/
theorem C3_unmatched_truth {α : Type} [DecidableEq α]
    (res gt : List (Finset α)) (t : Finset α) (fn : ℕ)
    (ht : t ∈ subFilter gt) :
    ((∀ r ∈ res, (t ∩ r).card = 0) → truthStep res fn t = fn + t.card) ∧
    ((∃ r ∈ res, 0 < (t ∩ r).card) → truthStep res fn t = fn) ∧
    (∀ r ∈ res, (t ∩ r).card ≤ (bestInter res t).1) ∧
    ((bestInter res t).1 = 0 ∨
      ∃ r ∈ res, (bestInter res t).1 = (t ∩ r).card) := by
  refine ⟨?_, ?_, ?_, ?_⟩
  · intro h
    have hz : bestInter res t = (0, ∅) := by
      rw [bestInter]
      exact bestFold_eq_init _ (0, ∅) res fun y hy => le_of_eq (h y hy)
    rw [truthStep, hz, if_pos rfl]
  · rintro ⟨r, hr, hrpos⟩
    have hle := mem_le_bestFold_fst (fun other => (t ∩ other).card) (0, ∅) res r hr
    have hpos : 0 < (bestInter res t).1 := lt_of_lt_of_le hrpos hle
    rw [truthStep, if_neg (Nat.pos_iff_ne_zero.mp hpos)]
  · intro r hr
    exact mem_le_bestFold_fst (fun other => (t ∩ other).card) (0, ∅) res r hr
  · rcases bestFold_eq_init_or_mem (fun other => (t ∩ other).card) (0, ∅) res
      with h | ⟨h1, h2⟩
    · left
      rw [bestInter, h]
    · right
      exact ⟨(bestInter res t).2, h2, h1⟩

theorem C3_unmatched_truth_witness :
    ({0} : Finset ℕ) ∈ subFilter [({0} : Finset ℕ)] ∧
    (((∀ r ∈ ([] : List (Finset ℕ)), (({0} : Finset ℕ) ∩ r).card = 0) →
        truthStep [] 0 ({0} : Finset ℕ) = 0 + ({0} : Finset ℕ).card) ∧
      ((∃ r ∈ ([] : List (Finset ℕ)), 0 < (({0} : Finset ℕ) ∩ r).card) →
        truthStep [] 0 ({0} : Finset ℕ) = 0) ∧
      (∀ r ∈ ([] : List (Finset ℕ)),
        (({0} : Finset ℕ) ∩ r).card ≤ (bestInter [] ({0} : Finset ℕ)).1) ∧
      ((bestInter [] ({0} : Finset ℕ)).1 = 0 ∨
        ∃ r ∈ ([] : List (Finset ℕ)),
          (bestInter [] ({0} : Finset ℕ)).1 = (({0} : Finset ℕ) ∩ r).card)) :=
  ⟨by decide, C3_unmatched_truth [] [{0}] {0} 0 (by decide)⟩

section DisjointLemmas

variable {α : Type} [DecidableEq α]

lemma jacc_eq_zero_of_disjoint {cc t : Finset α} (h : cc ∩ t = ∅) :
    jacc cc t = 0 := by
  rw [jacc, h]
  simp

lemma bestMatch_of_disjoint (gt : List (Finset α)) (cc : Finset α)
    (h : ∀ t ∈ gt, cc ∩ t = ∅) : bestMatch gt cc = (0, ∅) := by
  rw [bestMatch]
  exact bestFold_eq_init _ (0, ∅) gt
    fun y hy => le_of_eq (jacc_eq_zero_of_disjoint (h y hy))

lemma scoreStep_of_disjoint (gt : List (Finset α)) (acc : ℕ × ℕ × ℕ)
    (cc : Finset α) (h : ∀ t ∈ gt, cc ∩ t = ∅) :
    scoreStep gt acc cc = (acc.1, acc.2.1 + cc.card, acc.2.2) := by
  show (acc.1 + (cc ∩ (bestMatch gt cc).2).card,
    acc.2.1 + (cc \ (bestMatch gt cc).2).card,
    acc.2.2 + ((bestMatch gt cc).2 \ cc).card) = _
  rw [bestMatch_of_disjoint gt cc h]
  simp

end DisjointLemmas

/-- C1, counterexample: for the surviving detected class `{0}` and ground
truth `[{1}]`, the Jaccard-maximizing truth class (first on ties) is `{1}`,
so the claim predicts the accumulators gain
`(|{0} ∩ {1}|, |{0} \ {1}|, |{1} \ {0}|) = (0, 1, 1)`; the code instead
leaves `best_other` at its initial `set()` because no score exceeds `0.0`,
producing `(0, 1, 0)` — `fn` is not increased. -/
theorem C1_counterexample :
    (({0} : Finset ℕ) ∈ subFilter [({0} : Finset ℕ)]) ∧
    specBestTruth [({1} : Finset ℕ)] ({0} : Finset ℕ) = {1} ∧
    scoreStep [({1} : Finset ℕ)] (0, 0, 0) ({0} : Finset ℕ) = (0, 1, 0) ∧
    scoreStep [({1} : Finset ℕ)] (0, 0, 0) ({0} : Finset ℕ) ≠
      (0 + (({0} : Finset ℕ) ∩ specBestTruth [({1} : Finset ℕ)] ({0} : Finset ℕ)).card,
       0 + (({0} : Finset ℕ) \ specBestTruth [({1} : Finset ℕ)] ({0} : Finset ℕ)).card,
       0 + ((specBestTruth [({1} : Finset ℕ)] ({0} : Finset ℕ)) \ ({0} : Finset ℕ)).card) := by
  have h1 : specBestTruth [({1} : Finset ℕ)] ({0} : Finset ℕ) = {1} := by
    rw [specBestTruth]
    rw [List.find?_cons_of_pos]
    · rfl
    · simp
  have h2 : scoreStep [({1} : Finset ℕ)] (0, 0, 0) ({0} : Finset ℕ) = (0, 1, 0) := by
    have hbm : bestMatch [({1} : Finset ℕ)] ({0} : Finset ℕ) = (0, ∅) :=
      bestMatch_of_disjoint _ _ (by decide)
    show ((0 : ℕ) + (({0} : Finset ℕ) ∩ (bestMatch [({1} : Finset ℕ)] ({0} : Finset ℕ)).2).card,
      (0 : ℕ) + (({0} : Finset ℕ) \ (bestMatch [({1} : Finset ℕ)] ({0} : Finset ℕ)).2).card,
      (0 : ℕ) + ((bestMatch [({1} : Finset ℕ)] ({0} : Finset ℕ)).2 \ ({0} : Finset ℕ)).card) = _
    rw [hbm]
    decide
  refine ⟨by decide, h1, h2, ?_⟩
  rw [h1, h2]
  decide

/-- C1 (amended): for a surviving detected class `cc`, *provided some truth
class has positive Jaccard similarity with `cc`*, the loop selects the first
truth class attaining the maximal Jaccard similarity over all truth classes
and accumulates `tp += |cc ∩ t*|`, `fp += |cc \ t*|`, `fn += |t* \ cc|`;
when every truth class has zero similarity, the class is scored against the
initial empty `best_other` instead (`fp += |cc|`, `tp` and `fn` unchanged,
see the C10 theorem). -/
theorem C1_best_match_scoring {α : Type} [DecidableEq α]
    (res gt : List (Finset α)) (cc : Finset α) (tp fp fn : ℕ)
    (hcc : cc ∈ subFilter res)
    (hpos : ∃ t ∈ gt, 0 < jacc cc t) :
    specBestTruth gt cc ∈ gt ∧
    (∀ t ∈ gt, jacc cc t ≤ jacc cc (specBestTruth gt cc)) ∧
    scoreStep gt (tp, fp, fn) cc =
      (tp + (cc ∩ specBestTruth gt cc).card,
       fp + (cc \ specBestTruth gt cc).card,
       fn + (specBestTruth gt cc \ cc).card) := by
  have hkey : (bestMatch gt cc).2 = specBestTruth gt cc := by
    rw [bestMatch, specBestTruth]
    exact bestFold_snd_eq_find? (fun other => jacc cc other) gt 0 ∅ ∅ hpos
  have hgtne : gt ≠ [] := by
    rintro rfl
    obtain ⟨t, ht, _⟩ := hpos
    cases ht
  obtain ⟨y, hy, hmax⟩ := exists_fmax (fun other => jacc cc other) gt hgtne
  have hsome : (gt.find? fun t =>
      decide (∀ u ∈ gt, jacc cc u ≤ jacc cc t)).isSome := by
    rw [List.find?_isSome]
    exact ⟨y, hy, by simpa using hmax⟩
  obtain ⟨w, hw⟩ := Option.isSome_iff_exists.mp hsome
  have hwmem : w ∈ gt := List.mem_of_find?_eq_some hw
  have hwp := List.find?_some hw
  simp only [decide_eq_true_eq] at hwp
  have hspec : specBestTruth gt cc = w := by
    rw [specBestTruth, hw]
    rfl
  refine ⟨hspec ▸ hwmem, ?_, ?_⟩
  · intro t ht
    rw [hspec]
    exact hwp t ht
  · show (tp + (cc ∩ (bestMatch gt cc).2).card,
      fp + (cc \ (bestMatch gt cc).2).card,
      fn + ((bestMatch gt cc).2 \ cc).card) = _
    rw [hkey]

theorem C1_best_match_scoring_witness :
    (({1} : Finset ℕ) ∈ subFilter [({1} : Finset ℕ)]) ∧
    (∃ t ∈ [({1} : Finset ℕ)], 0 < jacc ({1} : Finset ℕ) t) ∧
    (specBestTruth [({1} : Finset ℕ)] ({1} : Finset ℕ) ∈ [({1} : Finset ℕ)] ∧
      (∀ t ∈ [({1} : Finset ℕ)],
        jacc ({1} : Finset ℕ) t ≤
          jacc ({1} : Finset ℕ) (specBestTruth [({1} : Finset ℕ)] ({1} : Finset ℕ))) ∧
      scoreStep [({1} : Finset ℕ)] (0, 0, 0) ({1} : Finset ℕ) =
        (0 + (({1} : Finset ℕ) ∩ specBestTruth [({1} : Finset ℕ)] ({1} : Finset ℕ)).card,
         0 + (({1} : Finset ℕ) \ specBestTruth [({1} : Finset ℕ)] ({1} : Finset ℕ)).card,
         0 + ((specBestTruth [({1} : Finset ℕ)] ({1} : Finset ℕ)) \ ({1} : Finset ℕ)).card)) :=
  ⟨by decide, ⟨{1}, by simp, by simp [jacc]⟩,
    C1_best_match_scoring [{1}] [{1}] {1} 0 0 0 (by decide)
      ⟨{1}, by simp, by simp [jacc]⟩⟩

/-- C10: a surviving detected class disjoint from every truth class is
matched against the initial empty `best_other`; the step adds `|cc|` to
`fp` and leaves `tp` and `fn` unchanged. -/
theorem C10_disjoint_detected_class {α : Type} [DecidableEq α]
    (res gt : List (Finset α)) (cc : Finset α) (tp fp fn : ℕ)
    (hcc : cc ∈ subFilter res) (hne : cc.Nonempty)
    (hdisj : ∀ t ∈ gt, cc ∩ t = ∅) :
    (bestMatch gt cc).2 = ∅ ∧
    scoreStep gt (tp, fp, fn) cc = (tp, fp + cc.card, fn) :=
  ⟨by rw [bestMatch_of_disjoint gt cc hdisj],
    scoreStep_of_disjoint gt (tp, fp, fn) cc hdisj⟩

theorem C10_disjoint_detected_class_witness :
    (({0} : Finset ℕ) ∈ subFilter [({0} : Finset ℕ)]) ∧
    ({0} : Finset ℕ).Nonempty ∧
    (∀ t ∈ [({1} : Finset ℕ)], ({0} : Finset ℕ) ∩ t = ∅) ∧
    ((bestMatch [({1} : Finset ℕ)] ({0} : Finset ℕ)).2 = ∅ ∧
      scoreStep [({1} : Finset ℕ)] (3, 4, 5) ({0} : Finset ℕ) =
        (3, 4 + ({0} : Finset ℕ).card, 5)) :=
  ⟨by decide, by decide, by decide,
    C10_disjoint_detected_class [{0}] [{1}] {0} 3 4 5 (by decide) (by decide)
      (by decide)⟩

section AggregateLemmas

variable {α : Type} [DecidableEq α]

lemma truthStep_of_disjoint (res : List (Finset α)) (fn : ℕ) (t : Finset α)
    (h : ∀ r ∈ res, t ∩ r = ∅) : truthStep res fn t = fn + t.card := by
  have hz : bestInter res t = (0, ∅) := by
    rw [bestInter]
    exact bestFold_eq_init _ (0, ∅) res fun y hy => by
      rw [h y hy]
      simp
  rw [truthStep, hz, if_pos rfl]

lemma foldl_scoreStep_disjoint (gt L : List (Finset α)) (acc : ℕ × ℕ × ℕ)
    (h : ∀ d ∈ L, ∀ t ∈ gt, d ∩ t = ∅) :
    L.foldl (scoreStep gt) acc =
      (acc.1, acc.2.1 + (L.map Finset.card).sum, acc.2.2) := by
  induction L generalizing acc with
  | nil => simp
  | cons d L ih =>
    rw [List.foldl_cons, scoreStep_of_disjoint gt acc d (h d (List.mem_cons_self d L)),
      ih _ fun d2 hd2 t ht => h d2 (List.mem_cons_of_mem d hd2) t ht]
    simp [Nat.add_assoc]

lemma foldl_truthStep_disjoint (res L : List (Finset α)) (fn : ℕ)
    (h : ∀ t ∈ L, ∀ r ∈ res, t ∩ r = ∅) :
    L.foldl (truthStep res) fn = fn + (L.map Finset.card).sum := by
  induction L generalizing fn with
  | nil => simp
  | cons t L ih =>
    rw [List.foldl_cons, truthStep_of_disjoint res fn t (h t (List.mem_cons_self t L)),
      ih _ fun t2 ht2 r hr => h t2 (List.mem_cons_of_mem t ht2) r hr]
    simp [Nat.add_assoc]

lemma subFilter_ne_nil (l : List (Finset α)) (hl : l ≠ []) :
    subFilter l ≠ [] := by
  obtain ⟨d, hd, hmax⟩ := exists_fmax (fun s : Finset α => s.card) l hl
  have hmem : d ∈ subFilter l := by
    rw [mem_subFilter_iff]
    exact ⟨hd, fun s2 hs2 hss =>
      absurd (hmax s2 hs2) (not_le.mpr (Finset.card_lt_card hss))⟩
  exact List.ne_nil_of_mem hmem

lemma sum_card_pos (L : List (Finset α)) (hL : L ≠ [])
    (hne : ∀ d ∈ L, d.Nonempty) : 0 < (L.map Finset.card).sum := by
  cases L with
  | nil => exact absurd rfl hL
  | cons d L =>
    have hd : 0 < d.card := (hne d (List.mem_cons_self d L)).card_pos
    rw [List.map_cons, List.sum_cons]
    omega

lemma metrics_zero_tp (fp fn : ℕ) (hfp : 0 < fp) (hfn : 0 < fn) :
    metrics 0 fp fn = Except.ok (0, 0, 0) := by
  rw [metrics, if_neg (by omega), if_neg (by omega), if_neg (by omega)]
  norm_num

end AggregateLemmas

/-- C7: when every detected class is disjoint from every truth class (no
shared function identifier) and both non-empty collections consist of
non-empty classes (the spec's data-model invariant), the scorer yields
`tp = 0` with `tp + fp + fn > 0`, and the derived metrics are
`precision = recall = fscore = 0`. -/
theorem C7_fully_disjoint {α : Type} [DecidableEq α]
    (res gt : List (Finset α)) (hr : res ≠ []) (hg : gt ≠ [])
    (hner : ∀ d ∈ res, d.Nonempty) (hneg : ∀ t ∈ gt, t.Nonempty)
    (hdisj : ∀ d ∈ res, ∀ t ∈ gt, d ∩ t = ∅) :
    (scorer res gt).1 = 0 ∧
    0 < (scorer res gt).1 + (scorer res gt).2.1 + (scorer res gt).2.2 ∧
    metrics (scorer res gt).1 (scorer res gt).2.1 (scorer res gt).2.2 =
      Except.ok (0, 0, 0) := by
  have hdp : detectedPass res gt =
      (0, ((subFilter res).map Finset.card).sum, 0) := by
    rw [detectedPass, foldl_scoreStep_disjoint gt (subFilter res) (0, 0, 0)
      fun d hd t ht => hdisj d (List.mem_of_mem_filter hd) t ht]
    simp
  have htp : truthPass res gt 0 = ((subFilter gt).map Finset.card).sum := by
    rw [truthPass, foldl_truthStep_disjoint res (subFilter gt) 0
      fun t ht r hr2 => by
        rw [Finset.inter_comm]
        exact hdisj r hr2 t (List.mem_of_mem_filter ht)]
    simp
  have hscorer : scorer res gt = (0, ((subFilter res).map Finset.card).sum,
      ((subFilter gt).map Finset.card).sum) := by
    show ((detectedPass res gt).1, (detectedPass res gt).2.1,
      truthPass res gt (detectedPass res gt).2.2) = _
    rw [hdp]
    exact congrArg _ (congrArg _ htp)
  have hfp : 0 < ((subFilter res).map Finset.card).sum :=
    sum_card_pos _ (subFilter_ne_nil res hr)
      fun d hd => hner d (List.mem_of_mem_filter hd)
  have hfn : 0 < ((subFilter gt).map Finset.card).sum :=
    sum_card_pos _ (subFilter_ne_nil gt hg)
      fun t ht => hneg t (List.mem_of_mem_filter ht)
  rw [hscorer]
  exact ⟨rfl, by simpa using Nat.add_pos_left hfp _, metrics_zero_tp _ _ hfp hfn⟩

theorem C7_fully_disjoint_witness :
    ([({0} : Finset ℕ)] ≠ ([] : List (Finset ℕ))) ∧
    ([({1} : Finset ℕ)] ≠ ([] : List (Finset ℕ))) ∧
    (∀ d ∈ [({0} : Finset ℕ)], d.Nonempty) ∧
    (∀ t ∈ [({1} : Finset ℕ)], t.Nonempty) ∧
    (∀ d ∈ [({0} : Finset ℕ)], ∀ t ∈ [({1} : Finset ℕ)], d ∩ t = ∅) ∧
    ((scorer [({0} : Finset ℕ)] [({1} : Finset ℕ)]).1 = 0 ∧
      0 < (scorer [({0} : Finset ℕ)] [({1} : Finset ℕ)]).1 +
        (scorer [({0} : Finset ℕ)] [({1} : Finset ℕ)]).2.1 +
        (scorer [({0} : Finset ℕ)] [({1} : Finset ℕ)]).2.2 ∧
      metrics (scorer [({0} : Finset ℕ)] [({1} : Finset ℕ)]).1
        (scorer [({0} : Finset ℕ)] [({1} : Finset ℕ)]).2.1
        (scorer [({0} : Finset ℕ)] [({1} : Finset ℕ)]).2.2 =
        Except.ok (0, 0, 0)) :=
  ⟨by decide, by decide, by decide, by decide, by decide,
    C7_fully_disjoint [{0}] [{1}] (by decide) (by decide) (by decide) (by decide)
      (by decide)⟩

/-- C8: scoring a single non-empty clone class against itself gives
`tp = |c|`, `fp = 0`, `fn = 0` and perfect metrics 1/1/1. -/
theorem C8_self_comparison {α : Type} [DecidableEq α]
    (c : Finset α) (hc : c.Nonempty) :
    scorer [c] [c] = (c.card, 0, 0) ∧
    metrics c.card 0 0 = Except.ok (1, 1, 1) := by
  have hcard0 : c.card ≠ 0 := hc.card_pos.ne'
  have hcardq : ((c.card : ℚ)) ≠ 0 := Nat.cast_ne_zero.mpr hcard0
  have hsub : subFilter [c] = [c] := by
    rw [subFilter]
    apply List.filter_eq_self.mpr
    intro a ha
    rw [List.mem_singleton] at ha
    subst ha
    rw [survives_iff]
    intro s2 hs2
    rw [List.mem_singleton] at hs2
    subst hs2
    exact fun hss => (Finset.ssubset_iff_subset_ne.mp hss).2 rfl
  have hjacc : jacc c c = 1 := by
    rw [jacc, Finset.inter_self, Finset.union_self]
    exact div_self hcardq
  have hbm : bestMatch [c] c = (1, c) := by
    rw [bestMatch, bestFold, List.foldl_cons, List.foldl_nil, hjacc]
    norm_num
  have hbi : bestInter [c] c = (c.card, c) := by
    rw [bestInter, bestFold, List.foldl_cons, List.foldl_nil, Finset.inter_self]
    rw [if_pos hc.card_pos]
  have hdp : detectedPass [c] [c] = (c.card, 0, 0) := by
    rw [detectedPass, hsub, List.foldl_cons, List.foldl_nil]
    show ((0 : ℕ) + (c ∩ (bestMatch [c] c).2).card,
      (0 : ℕ) + (c \ (bestMatch [c] c).2).card,
      (0 : ℕ) + ((bestMatch [c] c).2 \ c).card) = _
    rw [hbm]
    simp
  have htp : truthPass [c] [c] 0 = 0 := by
    rw [truthPass, hsub, List.foldl_cons, List.foldl_nil, truthStep, hbi]
    rw [if_neg hcard0]
  constructor
  · show ((detectedPass [c] [c]).1, (detectedPass [c] [c]).2.1,
      truthPass [c] [c] (detectedPass [c] [c]).2.2) = _
    rw [hdp]
    exact congrArg _ (congrArg _ htp)
  · rw [metrics, if_neg (by omega), if_neg (by omega), if_neg (by omega)]
    rw [Except.ok.injEq]
    refine Prod.ext ?_ (Prod.ext ?_ ?_)
    · push_cast
      rw [add_zero]
      exact div_self hcardq
    · push_cast
      rw [add_zero]
      exact div_self hcardq
    · push_cast
      rw [add_zero, add_zero]
      exact div_self (by positivity)

theorem C8_self_comparison_witness :
    ({0} : Finset ℕ).Nonempty ∧
    (scorer [({0} : Finset ℕ)] [({0} : Finset ℕ)] = (({0} : Finset ℕ).card, 0, 0) ∧
      metrics ({0} : Finset ℕ).card 0 0 = Except.ok (1, 1, 1)) :=
  ⟨by decide, C8_self_comparison {0} (by decide)⟩

/-- C6: the concrete scenario `detected = [{"A","B"}, {"A"}]`,
`truth = [{"A","B","C"}]`: the subsumption filter drops `{"A"}`, the
surviving class matches `{"A","B","C"}` with Jaccard `2/3`, and the run
produces `tp = 2`, `fp = 0`, `fn = 1`, hence `precision = 1.0`,
`recall = 2/3` (which prints as `0.6667` to four decimals) and
`fscore = 4/5 = 0.8`. -/
theorem C6_concrete_scenario :
    subFilter [({"A", "B"} : Finset String), {"A"}] = [{"A", "B"}] ∧
    jacc ({"A", "B"} : Finset String) {"A", "B", "C"} = 2 / 3 ∧
    scorer [({"A", "B"} : Finset String), {"A"}] [{"A", "B", "C"}] = (2, 0, 1) ∧
    metrics 2 0 1 = Except.ok (1, 2 / 3, 4 / 5) ∧
    ((1 : ℚ) = 1.0 ∧ round ((2 / 3 : ℚ) * 10000) = 6667 ∧ (4 / 5 : ℚ) = 0.8) := by
  refine ⟨by decide, by simp [jacc], ?_, ?_, by norm_num, ?_, by norm_num⟩
  · simp [scorer, detectedPass, truthPass, subFilter, scoreStep, truthStep,
      bestMatch, bestInter, bestFold, jacc,
      show survives [({"A", "B"} : Finset String), {"A"}]
        ({"A", "B"} : Finset String) = true by decide,
      show survives [({"A", "B"} : Finset String), {"A"}]
        ({"A"} : Finset String) = false by decide,
      show survives [({"A", "B", "C"} : Finset String)]
        ({"A", "B", "C"} : Finset String) = true by decide,
      show ({"B"} : Finset String) \ {"A", "B", "C"} = ∅ by decide,
      show ({"B", "C"} : Finset String) \ {"A", "B"} = {"C"} by decide]
  · rw [metrics]
    norm_num
  · rw [round_eq]
    norm_num

lemma classify_iff (p : String × String) :
    (if p.1 = p.2 ∧ p.1 ≠ "main" then PairVerdict.correct
     else if jointp.any (fun g => decide (p.1 ∈ g) && decide (p.2 ∈ g)) then
       PairVerdict.correct
     else PairVerdict.wrong) = PairVerdict.correct ↔
      ((p.1 = p.2 ∧ p.1 ≠ "main") ∨ ∃ g ∈ jointp, p.1 ∈ g ∧ p.2 ∈ g) := by
  split_ifs with h1 h2
  · exact iff_of_true rfl (Or.inl h1)
  · refine iff_of_true rfl (Or.inr ?_)
    rw [List.any_eq_true] at h2
    obtain ⟨g, hg, hmem⟩ := h2
    rw [Bool.and_eq_true, decide_eq_true_eq, decide_eq_true_eq] at hmem
    exact ⟨g, hg, hmem⟩
  · refine iff_of_false (by simp) ?_
    rintro (h | ⟨g, hg, hx, hy⟩)
    · exact h1 h
    · refine h2 ?_
      rw [List.any_eq_true]
      refine ⟨g, hg, ?_⟩
      rw [Bool.and_eq_true, decide_eq_true_eq, decide_eq_true_eq]
      exact ⟨hx, hy⟩

lemma classifyProp_comm (x y : String) :
    ((y = x ∧ y ≠ "main") ∨ ∃ g ∈ jointp, y ∈ g ∧ x ∈ g) ↔
      ((x = y ∧ x ≠ "main") ∨ ∃ g ∈ jointp, x ∈ g ∧ y ∈ g) := by
  constructor
  · rintro (⟨h1, h2⟩ | ⟨g, hg, hy, hx⟩)
    · exact Or.inl ⟨h1.symm, h1 ▸ h2⟩
    · exact Or.inr ⟨g, hg, hx, hy⟩
  · rintro (⟨h1, h2⟩ | ⟨g, hg, hx, hy⟩)
    · exact Or.inl ⟨h1.symm, h1 ▸ h2⟩
    · exact Or.inr ⟨g, hg, hy, hx⟩

/-- C4: `compare` strips everything up to and including the first '.' of
each name, normalizes the pair lexicographically, and classifies the pair
as correct exactly when the stripped names are equal and differ from
"main", or both stripped names lie in one Known Equivalence Group; in
particular the pair ("x.main", "y.main") is classified wrong. -/
theorem C4_compare_classification :
    (∀ a b : String,
      Comparison.compare a b = PairVerdict.correct ↔
        ((stripDot a = stripDot b ∧ stripDot a ≠ "main") ∨
          ∃ g ∈ jointp, stripDot a ∈ g ∧ stripDot b ∈ g)) ∧
    Comparison.compare "x.main" "y.main" = PairVerdict.wrong := by
  constructor
  · intro a b
    refine Iff.trans (by exact classify_iff (normPair (stripDot a) (stripDot b))) ?_
    rw [normPair]
    by_cases hs : strLt (stripDot b).toList (stripDot a).toList = true
    · rw [if_pos hs]
      exact classifyProp_comm (stripDot a) (stripDot b)
    · rw [if_neg hs]
  · decide
